import Mathlib

/-!
Shallow embedding of `src/bin/filtering-basic.py` (SCENICprotocol): basic
quality-control filtering of a cell × gene count matrix with scanpy, and the
loom writer.  Counts are modelled as rationals (the loom matrix holds
non-negative numeric counts); numpy's float division by zero is modelled
explicitly by the `RVal` type (NaN / ±infinity / finite).
-/

/-- Result of a numpy float division: NaN (0/0), +inf (pos/0), -inf (neg/0),
or a finite value.  Only division occurs in the source, so this restricted
model suffices. -/
inductive RVal where
  | nan : RVal
  | posInf : RVal
  | negInf : RVal
  | fin : ℚ → RVal
  deriving DecidableEq, Repr

/-- numpy division `a / b` on floats, for finite `a b`. -/
def rdiv (a b : ℚ) : RVal :=
  if b = 0 then
    if a = 0 then RVal.nan else if 0 < a then RVal.posInf else RVal.negInf
  else RVal.fin (a / b)

/-- IEEE comparison `v < t` for a finite threshold `t`: false for NaN and
+inf, true for -inf. -/
def ltR (v : RVal) (t : ℚ) : Bool :=
  match v with
  | RVal.nan => false
  | RVal.posInf => false
  | RVal.negInf => true
  | RVal.fin q => decide (q < t)

/-- Python `s.startswith(p)`, modelled on the character list. -/
def str_startswith (s p : String) : Bool :=
  decide (s.data.take p.data.length = p.data)

/-- Number of strictly positive entries of a row/column
(numpy `np.sum(X > 0, axis=...)` on one slice). -/
def countPos (xs : List ℚ) : ℕ :=
  xs.countP (fun x => decide (0 < x))

/-- Apply a boolean mask to a list (numpy fancy indexing `a[mask]`). -/
def applyMask : List Bool → List α → List α
  | b :: m, x :: xs => if b then x :: applyMask m xs else applyMask m xs
  | _, _ => []

/-- Sum of the entries selected by a mask
(`np.sum(adata[:, mito_genes].X, axis=1)` on one row). -/
def sumMasked (m : List Bool) (xs : List ℚ) : ℚ :=
  (applyMask m xs).sum

/-- One cell of the unfiltered AnnData: its obs name and its row of counts. -/
structure Cell where
  id : String
  counts : List ℚ
  deriving DecidableEq, Repr

/-- One cell after `sc.pp.filter_cells` has run: the obs dataframe now also
carries the `n_genes` annotation. -/
structure ACell where
  id : String
  counts : List ℚ
  n_genes : ℕ
  deriving DecidableEq, Repr

/-- The AnnData object as loaded from the loom file: cells × genes. -/
structure AnnData where
  cells : List Cell
  var_names : List String
  deriving DecidableEq, Repr

/-- The AnnData object once `n_genes` has been annotated. -/
structure AnnData1 where
  cells : List ACell
  var_names : List String
  deriving DecidableEq, Repr

/-- The four CLI thresholds (`--thr_min_genes`, `--thr_min_cells`,
`--thr_n_genes` are ints; `--thr_pct_mito` is a float, modelled as ℚ). -/
structure Config where
  thr_min_genes : ℤ
  thr_min_cells : ℤ
  thr_n_genes : ℤ
  thr_pct_mito : ℚ
  deriving DecidableEq, Repr

/-- `sc.pp.filter_cells(adata, min_genes=k)`: computes the number of genes
detected (entries > 0) per cell, stores it as the `n_genes` obs annotation,
and keeps the cells with `n_genes ≥ k`. -/
def filter_cells (minGenes : ℤ) (cs : List Cell) : List ACell :=
  (cs.map (fun c => ⟨c.id, c.counts, countPos c.counts⟩)).filter
    (fun c => decide (minGenes ≤ (c.n_genes : ℤ)))

/-- Number of cells in which gene `j` is detected (entry > 0), recomputed on
the current cell list (`np.sum(X > 0, axis=0)` at column `j`). -/
def cellsDetected (cells : List ACell) (j : ℕ) : ℕ :=
  cells.countP (fun c => decide (0 < c.counts.getD j 0))

/-- The gene mask of `sc.pp.filter_genes(adata, min_cells=k)`: gene `j`
survives iff it is detected in at least `k` of the current cells. -/
def colMask (minCells : ℤ) (A : AnnData1) : List Bool :=
  (List.range A.var_names.length).map
    (fun j => decide (minCells ≤ (cellsDetected A.cells j : ℤ)))

/-- `sc.pp.filter_genes(adata, min_cells=k)`: masks the matrix columns and
`var_names` with `colMask` (the `n_cells` var annotation it also writes is
never read downstream and is not modelled). -/
def filter_genes (minCells : ℤ) (A : AnnData1) : AnnData1 :=
  let m := colMask minCells A
  ⟨A.cells.map (fun c => ⟨c.id, applyMask m c.counts, c.n_genes⟩),
   applyMask m A.var_names⟩

/-- `adata.var_names.str.startswith('MT-')`. -/
def mitoMask (vns : List String) : List Bool :=
  vns.map (fun g => str_startswith g "MT-")

/-- Per-cell fraction of counts in mitochondrial genes
(`np.sum(adata[:, mito_genes].X, axis=1).A1 / np.sum(adata.X, axis=1).A1`
at one cell). -/
def percent_mito (vns : List String) (c : ACell) : RVal :=
  rdiv (sumMasked (mitoMask vns) c.counts) c.counts.sum

/-- The body of `initialFiltering` from reading the loom up to the last cut,
line by line: the two scanpy cuts, then `percent_mito` / `n_counts` computed
as obs columns on the narrowed matrix, then the `n_genes < thr_n_genes` and
`percent_mito < thr_pct_mito` boolean-mask subsettings (each mask subsets the
matrix together with every obs column). -/
def initialFiltering (cfg : Config) (A : AnnData) : AnnData1 :=
  let A1 : AnnData1 := ⟨filter_cells cfg.thr_min_genes A.cells, A.var_names⟩
  let A2 := filter_genes cfg.thr_min_cells A1
  let mito := mitoMask A2.var_names
  let pm := A2.cells.map (fun c => rdiv (sumMasked mito c.counts) c.counts.sum)
  let _n_counts := A2.cells.map (fun c => c.counts.sum)
  let mask4 := A2.cells.map (fun c => decide ((c.n_genes : ℤ) < cfg.thr_n_genes))
  let A3cells := applyMask mask4 A2.cells
  let pm4 := applyMask mask4 pm
  let mask5 := pm4.map (fun v => ltR v cfg.thr_pct_mito)
  ⟨applyMask mask5 A3cells, A2.var_names⟩

/-- The loom file written by `lp.create(args.loom_filtered, ...)`: the matrix
(gene × cell), the `Gene` row attribute and the `CellID` / `nGene` / `nUMI`
column attributes. -/
structure LoomFile where
  matrix : List (List ℚ)
  gene : List String
  cellID : List String
  nGene : List ℕ
  nUMI : List ℚ
  deriving DecidableEq, Repr

/-- `adata.X.transpose()`: row `j` of the result is column `j` of `rows`. -/
def transposeX (rows : List (List ℚ)) (ncols : ℕ) : List (List ℚ) :=
  (List.range ncols).map (fun j => rows.map (fun r => r.getD j 0))

/-- Column `i` of a gene × cell matrix (one cell's counts, as the writer's
`axis=0` reductions see them). -/
def colOf (xt : List (List ℚ)) (i : ℕ) : List ℚ :=
  xt.map (fun r => r.getD i 0)

/-- The output block of `initialFiltering`: `lp.create` receives
`adata.X.transpose()` and the attrs, where `nGene`/`nUMI` are the `axis=0`
nonzero-count and sum of the transposed matrix (per-cell statistics
recomputed from the final matrix). -/
def writeLoom (A : AnnData1) : LoomFile :=
  let xt := transposeX (A.cells.map ACell.counts) A.var_names.length
  { matrix := xt
    gene := A.var_names
    cellID := A.cells.map ACell.id
    nGene := (List.range A.cells.length).map (fun i => countPos (colOf xt i))
    nUMI := (List.range A.cells.length).map (fun i => (colOf xt i).sum) }

/-! ### The five-step decomposition, written from the spec's words (§4.3)

These definitions follow the specification sentence by sentence, to be
compared with `initialFiltering` (which follows the source line by line). -/

/-- Spec step 1: "Keep cells with genes-detected ≥ thr_min_genes"
(annotating each cell with its genes-detected count). -/
def specStep1 (t : ℤ) (A : AnnData) : AnnData1 :=
  ⟨(A.cells.map (fun c => ⟨c.id, c.counts, countPos c.counts⟩)).filter
      (fun c => decide (t ≤ (c.n_genes : ℤ))),
   A.var_names⟩

/-- Spec step 2: "Keep genes with cells-detected ≥ thr_min_cells, recomputed
against the cell set surviving step 1" — a boolean mask applied to the matrix
columns and the gene annotation together. -/
def specStep2 (t : ℤ) (A : AnnData1) : AnnData1 :=
  let m := (List.range A.var_names.length).map
    (fun j => decide (t ≤ (cellsDetected A.cells j : ℤ)))
  ⟨A.cells.map (fun c => ⟨c.id, applyMask m c.counts, c.n_genes⟩),
   applyMask m A.var_names⟩

/-- Spec step 3: "Recompute mitochondrial fraction and total counts using the
matrix as narrowed by steps 1–2" — the per-cell statistics of the narrowed
matrix. -/
def specStep3 (A : AnnData1) : List RVal × List ℚ :=
  (A.cells.map (percent_mito A.var_names), A.cells.map (fun c => c.counts.sum))

/-- Spec step 4: "Keep cells with genes-detected < thr_n_genes" (the
genes-detected annotation recorded at step 1). -/
def specStep4 (t : ℤ) (A : AnnData1) : AnnData1 :=
  ⟨A.cells.filter (fun c => decide ((c.n_genes : ℤ) < t)), A.var_names⟩

/-- Spec step 5: "Keep cells with mitochondrial fraction < thr_pct_mito",
the fraction being the step-3 statistic of the cell (unchanged by the step-4
cell cut, which touches neither the cell's row nor the gene set). -/
def specStep5 (t : ℚ) (A : AnnData1) : AnnData1 :=
  ⟨A.cells.filter (fun c => ltR (percent_mito A.var_names c) t), A.var_names⟩

/-- The spec's filter engine: the five steps in the fixed order 1–5. -/
def fiveStepPipeline (cfg : Config) (A : AnnData) : AnnData1 :=
  specStep5 cfg.thr_pct_mito
    (specStep4 cfg.thr_n_genes
      (specStep2 cfg.thr_min_cells
        (specStep1 cfg.thr_min_genes A)))

/-- Forgetting the `n_genes` annotation: the data that the output loom file
carries back into a re-run of the script (matrix, cell ids, gene ids). -/
def toInput (A : AnnData1) : AnnData :=
  ⟨A.cells.map (fun c => ⟨c.id, c.counts⟩), A.var_names⟩

/-- Rectangularity: every row of the matrix has one entry per gene. -/
def WF (A : AnnData) : Prop :=
  ∀ c ∈ A.cells, c.counts.length = A.var_names.length

/-- Rectangularity of an annotated AnnData. -/
def WF1 (A : AnnData1) : Prop :=
  ∀ c ∈ A.cells, c.counts.length = A.var_names.length

/-- All counts of the matrix are non-negative (expression counts). -/
def NonnegData (A : AnnData) : Prop :=
  ∀ c ∈ A.cells, ∀ x ∈ c.counts, (0 : ℚ) ≤ x

/-- The matrix state after the two scanpy cuts (steps 1–2). -/
def step12 (cfg : Config) (A : AnnData) : AnnData1 :=
  filter_genes cfg.thr_min_cells ⟨filter_cells cfg.thr_min_genes A.cells, A.var_names⟩

/-- Example thresholds for the mito scenario: `thr_min_genes=2`,
`thr_min_cells=1`, `thr_n_genes=100`, `thr_pct_mito=0.25`. -/
def exCfg : Config := ⟨2, 1, 100, 1/4⟩

/-- Example matrix of the spec's mito scenario: 5 cells × 3 genes; the gene
"MT-CO1" has counts [10,0,0,0,0] and the per-cell totals are
[20,5,5,5,5]. -/
def exData : AnnData :=
  ⟨[⟨"c1", [10, 5, 5]⟩, ⟨"c2", [0, 3, 2]⟩, ⟨"c3", [0, 3, 2]⟩,
    ⟨"c4", [0, 3, 2]⟩, ⟨"c5", [0, 3, 2]⟩],
   ["MT-CO1", "G1", "G2"]⟩

/-- Thresholds under which re-running the filter is not a no-op:
`thr_min_genes=2`, `thr_min_cells=2`, `thr_n_genes=100`,
`thr_pct_mito=0.25`. -/
def cexCfg : Config := ⟨2, 2, 100, 1/4⟩

/-- A 3-cell × 3-gene matrix: gene g3 is detected in one cell only, so the
gene cut removes it, after which cell c2 has only one detected gene left. -/
def cexData : AnnData :=
  ⟨[⟨"c1", [1, 1, 0]⟩, ⟨"c2", [1, 0, 1]⟩, ⟨"c3", [1, 1, 0]⟩],
   ["g1", "g2", "g3"]⟩

/-! ### Basic lemmas about masking -/

theorem applyMask_nil (m : List Bool) : applyMask m ([] : List α) = [] := by
  cases m <;> rfl

theorem applyMask_sublist (m : List Bool) (xs : List α) :
    List.Sublist (applyMask m xs) xs := by
  induction xs generalizing m with
  | nil => rw [applyMask_nil]
  | cons x xs ih =>
    cases m with
    | nil => exact List.nil_sublist _
    | cons b m =>
      cases b with
      | true => simpa [applyMask] using (ih m).cons₂ x
      | false => simpa [applyMask] using (ih m).cons x

theorem mem_applyMask {m : List Bool} {xs : List α} {a : α}
    (h : a ∈ applyMask m xs) : a ∈ xs :=
  (applyMask_sublist m xs).subset h

theorem applyMask_map (pb : α → Bool) (f : α → β) (l : List α) :
    applyMask (l.map pb) (l.map f) = (l.filter pb).map f := by
  induction l with
  | nil => rfl
  | cons a l ih =>
    by_cases h : pb a = true
    · simp [applyMask, List.filter_cons, h, ih]
    · simp only [Bool.not_eq_true] at h
      simp [applyMask, List.filter_cons, h, ih]

theorem applyMask_map_self (pb : α → Bool) (l : List α) :
    applyMask (l.map pb) l = l.filter pb := by
  have h := applyMask_map pb id l
  simpa using h

theorem applyMask_all_true (xs : List α) :
    applyMask (List.replicate xs.length true) xs = xs := by
  induction xs with
  | nil => rfl
  | cons x xs ih => simp [applyMask, List.replicate, ih]

theorem applyMask_length_eq {xs : List α} {ys : List β} (m : List Bool)
    (h : xs.length = ys.length) :
    (applyMask m xs).length = (applyMask m ys).length := by
  induction xs generalizing ys m with
  | nil =>
    cases ys with
    | nil => simp [applyMask_nil]
    | cons y ys => simp at h
  | cons x xs ih =>
    cases ys with
    | nil => simp at h
    | cons y ys =>
      cases m with
      | nil => rfl
      | cons b m =>
        simp only [List.length_cons, Nat.succ.injEq] at h
        cases b with
        | true => simp [applyMask, ih m h]
        | false => simp [applyMask, ih m h]

theorem sum_applyMask_nonneg (m : List Bool) (xs : List ℚ)
    (h : ∀ x ∈ xs, 0 ≤ x) : 0 ≤ (applyMask m xs).sum :=
  List.sum_nonneg (fun x hx => h x (mem_applyMask hx))

theorem sum_applyMask_le (m : List Bool) (xs : List ℚ)
    (h : ∀ x ∈ xs, 0 ≤ x) : (applyMask m xs).sum ≤ xs.sum := by
  induction xs generalizing m with
  | nil => rw [applyMask_nil]
  | cons x xs ih =>
    have hx : 0 ≤ x := h x (List.mem_cons_self x xs)
    have hxs : ∀ y ∈ xs, 0 ≤ y := fun y hy => h y (List.mem_cons_of_mem x hy)
    cases m with
    | nil =>
      simp only [applyMask, List.sum_nil, List.sum_cons]
      have := List.sum_nonneg hxs
      linarith
    | cons b m =>
      cases b with
      | true =>
        simp only [applyMask, if_true, List.sum_cons]
        exact add_le_add_left (ih m hxs) x
      | false =>
        simp only [applyMask, List.sum_cons]
        have h1 := ih m hxs
        have h2 : (if (false = true) then x :: applyMask m xs else applyMask m xs) =
            applyMask m xs := by simp
        rw [h2]
        linarith

/-! ### The pipeline in filter form -/

/-- The source's mask-based subsetting of steps 4–5 is, cellwise, the pair of
filters on the step-1 `n_genes` annotation and the step-3 mito fraction. -/
theorem initialFiltering_as_filter (cfg : Config) (A : AnnData) :
    initialFiltering cfg A =
      ⟨((step12 cfg A).cells.filter
          (fun c => decide ((c.n_genes : ℤ) < cfg.thr_n_genes))).filter
          (fun c => ltR (percent_mito (step12 cfg A).var_names c) cfg.thr_pct_mito),
        (step12 cfg A).var_names⟩ := by
  unfold initialFiltering step12
  simp only [applyMask_map_self, applyMask_map, List.map_map]
  rfl

/-- Membership in the final cell list, unfolded through the two cuts of
steps 4–5. -/
theorem mem_initialFiltering {cfg : Config} {A : AnnData} {c : ACell} :
    c ∈ (initialFiltering cfg A).cells ↔
      c ∈ (step12 cfg A).cells ∧
      ((c.n_genes : ℤ) < cfg.thr_n_genes) ∧
      ltR (percent_mito (step12 cfg A).var_names c) cfg.thr_pct_mito = true := by
  rw [initialFiltering_as_filter]
  simp only [List.mem_filter, decide_eq_true_eq]
  tauto

/-- Non-negative counts survive steps 1–2 (every entry of a post-cut row is
an entry of an input row). -/
theorem step12_counts_nonneg (cfg : Config) (A : AnnData) (h : NonnegData A) :
    ∀ c ∈ (step12 cfg A).cells, ∀ x ∈ c.counts, (0 : ℚ) ≤ x := by
  intro c hc x hx
  unfold step12 filter_genes at hc
  simp only [List.mem_map] at hc
  obtain ⟨c1, hc1, rfl⟩ := hc
  have hx1 : x ∈ c1.counts := mem_applyMask hx
  unfold filter_cells at hc1
  rw [List.mem_filter] at hc1
  obtain ⟨hc1m, _⟩ := hc1
  simp only [List.mem_map] at hc1m
  obtain ⟨c0, hc0, rfl⟩ := hc1m
  exact h c0 hc0 x hx1

/-- If `0 ≤ a ≤ b` and the IEEE comparison `a/b < t` succeeds, then the
division was finite and lands in `[0, 1]`. -/
theorem ltR_rdiv_of_nonneg {a b t : ℚ} (ha : 0 ≤ a) (hab : a ≤ b)
    (h : ltR (rdiv a b) t = true) :
    ∃ q : ℚ, rdiv a b = RVal.fin q ∧ 0 ≤ q ∧ q ≤ 1 ∧ q < t := by
  unfold rdiv at h ⊢
  by_cases hb : b = 0
  · subst hb
    have haz : a = 0 := le_antisymm hab ha
    subst haz
    simp [ltR] at h
  · have hbpos : 0 < b := by
      rcases lt_or_gt_of_ne hb with hneg | hpos
      · exact absurd (le_trans ha hab) (not_le_of_lt hneg)
      · exact hpos
    simp only [hb, if_false, ltR, decide_eq_true_eq] at h
    refine ⟨a / b, by simp [hb], div_nonneg ha (le_of_lt hbpos), ?_, h⟩
    exact (div_le_one hbpos).mpr hab

/-! ### Claim theorems -/

/-- C2: for every input matrix (with non-negative counts) and every threshold
configuration, every cell surviving the full pipeline has a mitochondrial
fraction — the sum of its counts over genes whose identifier starts with
"MT-" divided by its total counts — that is a finite value in the closed
interval [0, 1]. -/
theorem c2_surviving_mito_fraction_in_unit_interval (cfg : Config)
    (A : AnnData) (h : NonnegData A) :
    ∀ c ∈ (initialFiltering cfg A).cells,
      ∃ q : ℚ, percent_mito (initialFiltering cfg A).var_names c = RVal.fin q ∧
        0 ≤ q ∧ q ≤ 1 := by
  intro c hc
  obtain ⟨hmem, _, hp5⟩ := mem_initialFiltering.mp hc
  have hvns : (initialFiltering cfg A).var_names = (step12 cfg A).var_names := by
    rw [initialFiltering_as_filter]
  rw [hvns]
  have hcnn := step12_counts_nonneg cfg A h c hmem
  have ha : 0 ≤ sumMasked (mitoMask (step12 cfg A).var_names) c.counts :=
    sum_applyMask_nonneg _ _ hcnn
  have hab : sumMasked (mitoMask (step12 cfg A).var_names) c.counts ≤ c.counts.sum :=
    sum_applyMask_le _ _ hcnn
  obtain ⟨q, heq, h0, h1, _⟩ := ltR_rdiv_of_nonneg ha hab hp5
  exact ⟨q, heq, h0, h1⟩

/-- Witness for C2 at the concrete example data. -/
theorem c2_witness :
    NonnegData exData ∧
      ∀ c ∈ (initialFiltering exCfg exData).cells,
        ∃ q : ℚ, percent_mito (initialFiltering exCfg exData).var_names c = RVal.fin q ∧
          0 ≤ q ∧ q ≤ 1 :=
  ⟨by unfold NonnegData exData; decide, c2_surviving_mito_fraction_in_unit_interval exCfg exData (by unfold NonnegData exData; decide)⟩

/-- C8: on a matrix with non-negative counts, a cell whose total count is
zero after steps 1–2 gets the NaN mitochondrial fraction (0/0), and since
NaN fails every `<` comparison, no surviving cell has total count zero. -/
theorem c8_zero_total_cells_removed (cfg : Config) (A : AnnData)
    (h : NonnegData A) :
    (∀ c ∈ (step12 cfg A).cells, c.counts.sum = 0 →
        percent_mito (step12 cfg A).var_names c = RVal.nan) ∧
    ∀ c ∈ (initialFiltering cfg A).cells, c.counts.sum ≠ 0 := by
  have key : ∀ c ∈ (step12 cfg A).cells, c.counts.sum = 0 →
      percent_mito (step12 cfg A).var_names c = RVal.nan := by
    intro c hc hsum
    have hcnn := step12_counts_nonneg cfg A h c hc
    have ha : 0 ≤ sumMasked (mitoMask (step12 cfg A).var_names) c.counts :=
      sum_applyMask_nonneg _ _ hcnn
    have hab : sumMasked (mitoMask (step12 cfg A).var_names) c.counts ≤ c.counts.sum :=
      sum_applyMask_le _ _ hcnn
    have haz : sumMasked (mitoMask (step12 cfg A).var_names) c.counts = 0 :=
      le_antisymm (hsum ▸ hab) ha
    unfold percent_mito rdiv
    rw [hsum, haz]
    simp
  refine ⟨key, ?_⟩
  intro c hc hsum
  obtain ⟨hmem, _, hp5⟩ := mem_initialFiltering.mp hc
  rw [key c hmem hsum] at hp5
  simp [ltR] at hp5

/-- Witness for C8 at the concrete example data. -/
theorem c8_witness :
    NonnegData exData ∧
      ((∀ c ∈ (step12 exCfg exData).cells, c.counts.sum = 0 →
          percent_mito (step12 exCfg exData).var_names c = RVal.nan) ∧
       ∀ c ∈ (initialFiltering exCfg exData).cells, c.counts.sum ≠ 0) :=
  ⟨by unfold NonnegData exData; decide, c8_zero_total_cells_removed exCfg exData (by unfold NonnegData exData; decide)⟩

/-- `filter_cells` with threshold 0 keeps every cell (only annotating it). -/
theorem filter_cells_zero (cs : List Cell) :
    filter_cells 0 cs = cs.map (fun c => ⟨c.id, c.counts, countPos c.counts⟩) := by
  unfold filter_cells
  apply List.filter_eq_self.mpr
  intro a _
  simp

/-- The gene mask with threshold 0 selects every gene. -/
theorem colMask_zero (A : AnnData1) :
    colMask 0 A = List.replicate A.var_names.length true := by
  unfold colMask
  have h : (fun j => decide ((0 : ℤ) ≤ (cellsDetected A.cells j : ℤ))) =
      fun _ : ℕ => true := by
    funext j
    simp
  rw [h]
  simp [List.map_const']

/-- `filter_genes` with threshold 0 is the identity on a rectangular
AnnData. -/
theorem filter_genes_zero (A : AnnData1) (h : WF1 A) :
    filter_genes 0 A = A := by
  obtain ⟨cells, vns⟩ := A
  unfold filter_genes
  rw [colMask_zero]
  simp only
  congr 1
  · have : ∀ c ∈ cells,
        (⟨c.id, applyMask (List.replicate vns.length true) c.counts, c.n_genes⟩ : ACell) = c := by
      intro c hc
      have hlen : c.counts.length = vns.length := h c hc
      rw [← hlen, applyMask_all_true]
    calc cells.map (fun c =>
            (⟨c.id, applyMask (List.replicate vns.length true) c.counts, c.n_genes⟩ : ACell))
        = cells.map id := List.map_congr_left this
      _ = cells := List.map_id cells
  · exact applyMask_all_true vns

/-- With both minimum thresholds at 0, steps 1-2 only annotate: the matrix
is unchanged. -/
theorem step12_zero (cfg : Config) (A : AnnData) (hWF : WF A)
    (h1 : cfg.thr_min_genes = 0) (h2 : cfg.thr_min_cells = 0) :
    step12 cfg A =
      ⟨A.cells.map (fun c => ⟨c.id, c.counts, countPos c.counts⟩), A.var_names⟩ := by
  unfold step12
  rw [h1, h2, filter_cells_zero]
  refine filter_genes_zero _ ?_
  intro c hc
  simp only [List.mem_map] at hc
  obtain ⟨c0, hc0, rfl⟩ := hc
  exact hWF c0 hc0

/-- C1: the source's filter engine is exactly the spec's five steps in the
fixed order — cut cells on `thr_min_genes`, cut genes on `thr_min_cells`
recomputed on the surviving cells, recompute the per-cell statistics on the
narrowed matrix, cut cells on `thr_n_genes`, cut cells on `thr_pct_mito` —
each step masking the matrix and its annotations together. -/
theorem c1_filter_engine_is_five_steps (cfg : Config) (A : AnnData) :
    initialFiltering cfg A = fiveStepPipeline cfg A ∧
    (specStep4 cfg.thr_n_genes
        (specStep2 cfg.thr_min_cells (specStep1 cfg.thr_min_genes A))).cells.map
      (percent_mito (specStep2 cfg.thr_min_cells (specStep1 cfg.thr_min_genes A)).var_names) =
    applyMask
      ((specStep2 cfg.thr_min_cells (specStep1 cfg.thr_min_genes A)).cells.map
        (fun c => decide ((c.n_genes : ℤ) < cfg.thr_n_genes)))
      (specStep3 (specStep2 cfg.thr_min_cells (specStep1 cfg.thr_min_genes A))).1 := by
  constructor
  · rw [initialFiltering_as_filter]
    rfl
  · exact (applyMask_map _ _ _).symm

section RatEval

/- Batteries marks the rational operations `@[irreducible]`, which blocks
`decide`'s reduction on closed rational arithmetic; the kernel itself ignores
reducibility, so restoring the default makes concrete pipeline runs
checkable. -/
attribute [local semireducible] Rat.add Rat.mul Rat.inv Rat.sub

/-- C5: in the 5-cell scenario, after the min-genes/min-cells cuts the gene
"MT-CO1" carries counts [10,0,0,0,0], the per-cell totals are [20,5,5,5,5],
cell 1's mitochondrial fraction is 10/20 = 1/2, and with
`thr_pct_mito = 1/4` the mito cut removes exactly cell 1. -/
theorem c5_mito_scenario :
    (step12 exCfg exData).var_names.getD 0 "" = "MT-CO1" ∧
    (step12 exCfg exData).cells.map (fun c => c.counts.getD 0 0) = [10, 0, 0, 0, 0] ∧
    (step12 exCfg exData).cells.map (fun c => c.counts.sum) = [20, 5, 5, 5, 5] ∧
    percent_mito (step12 exCfg exData).var_names
        ((step12 exCfg exData).cells.getD 0 ⟨"", [], 0⟩) = RVal.fin (10 / 20) ∧
    ltR (RVal.fin (10 / 20)) exCfg.thr_pct_mito = false ∧
    (initialFiltering exCfg exData).cells.map ACell.id = ["c2", "c3", "c4", "c5"] := by
  decide

/-- C6: a threshold of 0 makes the step-1 cell cut retain every cell (ids
and rows unchanged) and the step-2 gene cut retain every gene (the AnnData
unchanged). -/
theorem c6_zero_threshold_noop (A : AnnData) (A1 : AnnData1) (h : WF1 A1) :
    (filter_cells 0 A.cells).map ACell.id = A.cells.map Cell.id ∧
    (filter_cells 0 A.cells).map ACell.counts = A.cells.map Cell.counts ∧
    filter_genes 0 A1 = A1 := by
  refine ⟨?_, ?_, filter_genes_zero A1 h⟩
  · rw [filter_cells_zero, List.map_map]
    rfl
  · rw [filter_cells_zero, List.map_map]
    rfl

/-- Witness for C6 at concrete data. -/
theorem c6_witness :
    WF1 ⟨[⟨"c1", [1, 2], 2⟩], ["a", "b"]⟩ ∧
    ((filter_cells 0 exData.cells).map ACell.id = exData.cells.map Cell.id ∧
     (filter_cells 0 exData.cells).map ACell.counts = exData.cells.map Cell.counts ∧
     filter_genes 0 ⟨[⟨"c1", [1, 2], 2⟩], ["a", "b"]⟩ = ⟨[⟨"c1", [1, 2], 2⟩], ["a", "b"]⟩) :=
  ⟨by unfold WF1; decide,
   c6_zero_threshold_noop exData ⟨[⟨"c1", [1, 2], 2⟩], ["a", "b"]⟩ (by unfold WF1; decide)⟩

/-- C3 counterexample: with thresholds (2,2,100,1/4) on `cexData`, re-running
the filter on the previous output removes cell "c2" (its second detected gene
was dropped by the gene cut, so its recomputed genes-detected falls below
`thr_min_genes`): the output matrix is not a fixed point. -/
theorem c3_counterexample_not_idempotent :
    toInput (initialFiltering cexCfg (toInput (initialFiltering cexCfg cexData))) ≠
      toInput (initialFiltering cexCfg cexData) := by
  decide

/-- C3 (amended): the filter pipeline is idempotent when `thr_min_genes = 0`
and `thr_min_cells = 0`; in general a second application can remove further
cells, because step 1 recomputes genes-detected on the gene set narrowed by
the first run's step 2. -/
theorem c3_amended_idempotent_when_min_thresholds_zero (cfg : Config)
    (A : AnnData) (hWF : WF A) (h1 : cfg.thr_min_genes = 0)
    (h2 : cfg.thr_min_cells = 0) :
    initialFiltering cfg (toInput (initialFiltering cfg A)) =
      initialFiltering cfg A := by
  have hs1 := step12_zero cfg A hWF h1 h2
  have hrun1 : initialFiltering cfg A =
      ⟨((A.cells.map (fun c => ⟨c.id, c.counts, countPos c.counts⟩)).filter
          (fun c => decide ((c.n_genes : ℤ) < cfg.thr_n_genes))).filter
          (fun c => ltR (percent_mito A.var_names c) cfg.thr_pct_mito),
       A.var_names⟩ := by
    rw [initialFiltering_as_filter, hs1]
  have hmem : ∀ c ∈ (initialFiltering cfg A).cells,
      c ∈ A.cells.map (fun c => (⟨c.id, c.counts, countPos c.counts⟩ : ACell)) ∧
      (decide ((c.n_genes : ℤ) < cfg.thr_n_genes)) = true ∧
      ltR (percent_mito A.var_names c) cfg.thr_pct_mito = true := by
    intro c hc
    rw [hrun1] at hc
    simp only [List.mem_filter] at hc
    tauto
  have hng : ∀ c ∈ (initialFiltering cfg A).cells, countPos c.counts = c.n_genes := by
    intro c hc
    obtain ⟨hL, _, _⟩ := hmem c hc
    simp only [List.mem_map] at hL
    obtain ⟨c0, _, rfl⟩ := hL
    rfl
  have hvns : (initialFiltering cfg A).var_names = A.var_names := by
    rw [hrun1]
  have hWF2 : WF (toInput (initialFiltering cfg A)) := by
    intro c hc
    simp only [toInput, List.mem_map] at hc
    obtain ⟨c1, hc1, rfl⟩ := hc
    obtain ⟨hL, _, _⟩ := hmem c1 hc1
    simp only [List.mem_map] at hL
    obtain ⟨c0, hc0, rfl⟩ := hL
    simpa [toInput, hvns] using hWF c0 hc0
  have hs2 : step12 cfg (toInput (initialFiltering cfg A)) =
      ⟨(initialFiltering cfg A).cells, A.var_names⟩ := by
    rw [step12_zero cfg _ hWF2 h1 h2]
    simp only [toInput, List.map_map]
    congr 1
    · calc (initialFiltering cfg A).cells.map
            (fun c => (⟨c.id, c.counts, countPos c.counts⟩ : ACell))
          = (initialFiltering cfg A).cells.map id :=
            List.map_congr_left (fun c hc => by rw [hng c hc]; rfl)
        _ = (initialFiltering cfg A).cells := List.map_id _
  rw [initialFiltering_as_filter cfg (toInput (initialFiltering cfg A)), hs2]
  have hp4 : (initialFiltering cfg A).cells.filter
      (fun c => decide ((c.n_genes : ℤ) < cfg.thr_n_genes)) =
      (initialFiltering cfg A).cells :=
    List.filter_eq_self.mpr (fun c hc => (hmem c hc).2.1)
  have hp5 : (initialFiltering cfg A).cells.filter
      (fun c => ltR (percent_mito A.var_names c) cfg.thr_pct_mito) =
      (initialFiltering cfg A).cells :=
    List.filter_eq_self.mpr (fun c hc => (hmem c hc).2.2)
  simp only
  rw [hp4, hp5]
  calc (⟨(initialFiltering cfg A).cells, A.var_names⟩ : AnnData1)
      = ⟨(initialFiltering cfg A).cells, (initialFiltering cfg A).var_names⟩ := by
        rw [hvns]
    _ = initialFiltering cfg A := rfl

/-- Witness for the amended C3 at concrete data. -/
theorem c3_amended_witness :
    WF exData ∧
    initialFiltering ⟨0, 0, 100, 1/4⟩ (toInput (initialFiltering ⟨0, 0, 100, 1/4⟩ exData)) =
      initialFiltering ⟨0, 0, 100, 1/4⟩ exData :=
  ⟨by unfold WF exData; decide,
   c3_amended_idempotent_when_min_thresholds_zero ⟨0, 0, 100, 1/4⟩ exData
     (by unfold WF exData; decide) rfl rfl⟩

/-- C4: every step only narrows the matrix — step 1 keeps a subset of the
cells, step 2 keeps all cells and a subset of the genes, steps 4 and 5 keep
subsets of the cells and all genes; cardinalities never increase and a
removed cell or gene never reappears downstream. -/
theorem c4_each_step_narrows (cfg : Config) (A : AnnData) :
    (filter_cells cfg.thr_min_genes A.cells).length ≤ A.cells.length ∧
    (∀ c ∈ filter_cells cfg.thr_min_genes A.cells,
      c.id ∈ A.cells.map (fun c => c.id)) ∧
    (step12 cfg A).cells.length = (filter_cells cfg.thr_min_genes A.cells).length ∧
    (step12 cfg A).var_names.length ≤ A.var_names.length ∧
    (∀ g ∈ (step12 cfg A).var_names, g ∈ A.var_names) ∧
    ((step12 cfg A).cells.filter
        (fun c => decide ((c.n_genes : ℤ) < cfg.thr_n_genes))).length ≤
      (step12 cfg A).cells.length ∧
    (initialFiltering cfg A).cells.length ≤
      ((step12 cfg A).cells.filter
        (fun c => decide ((c.n_genes : ℤ) < cfg.thr_n_genes))).length ∧
    (∀ c ∈ (initialFiltering cfg A).cells,
      c ∈ (step12 cfg A).cells.filter
        (fun c => decide ((c.n_genes : ℤ) < cfg.thr_n_genes))) ∧
    (∀ c ∈ (step12 cfg A).cells.filter
        (fun c => decide ((c.n_genes : ℤ) < cfg.thr_n_genes)),
      c ∈ (step12 cfg A).cells) ∧
    (initialFiltering cfg A).var_names = (step12 cfg A).var_names ∧
    (∀ c ∈ (initialFiltering cfg A).cells, c.id ∈ A.cells.map (fun c => c.id)) := by
  have hof := initialFiltering_as_filter cfg A
  have hS : ∀ c ∈ (step12 cfg A).cells, c.id ∈ A.cells.map (fun c => c.id) := by
    intro c hc
    unfold step12 filter_genes at hc
    simp only [List.mem_map] at hc
    obtain ⟨c1, hc1, rfl⟩ := hc
    unfold filter_cells at hc1
    rw [List.mem_filter] at hc1
    obtain ⟨hm, _⟩ := hc1
    simp only [List.mem_map] at hm ⊢
    obtain ⟨c0, hc0, rfl⟩ := hm
    exact ⟨c0, hc0, rfl⟩
  refine ⟨?_, ?_, ?_, ?_, ?_, ?_, ?_, ?_, ?_, ?_, ?_⟩
  · unfold filter_cells
    exact (List.length_filter_le _ _).trans (le_of_eq (List.length_map _ _))
  · intro c hc
    unfold filter_cells at hc
    rw [List.mem_filter] at hc
    obtain ⟨hm, _⟩ := hc
    simp only [List.mem_map] at hm ⊢
    obtain ⟨c0, hc0, rfl⟩ := hm
    exact ⟨c0, hc0, rfl⟩
  · unfold step12 filter_genes
    exact List.length_map _ _
  · exact (applyMask_sublist _ _).length_le
  · intro g hg
    exact mem_applyMask hg
  · exact List.length_filter_le _ _
  · rw [hof]
    exact List.length_filter_le _ _
  · intro c hc
    rw [hof] at hc
    exact (List.mem_filter.mp hc).1
  · intro c hc
    exact (List.mem_filter.mp hc).1
  · rw [hof]
  · intro c hc
    rw [hof] at hc
    exact hS c (List.mem_filter.mp (List.mem_filter.mp hc).1).1

/-- C10: the pipeline and the writer preserve relative order — the output
cell-identifier sequence is a subsequence of the input one, likewise the
gene identifiers, and the written `CellID` / `Gene` attributes are exactly
those sequences. -/
theorem c10_relative_order_preserved (cfg : Config) (A : AnnData) :
    List.Sublist ((initialFiltering cfg A).cells.map (fun c => c.id))
      (A.cells.map (fun c => c.id)) ∧
    List.Sublist (initialFiltering cfg A).var_names A.var_names ∧
    (writeLoom (initialFiltering cfg A)).cellID =
      (initialFiltering cfg A).cells.map (fun c => c.id) ∧
    (writeLoom (initialFiltering cfg A)).gene = (initialFiltering cfg A).var_names := by
  have h1 : List.Sublist (initialFiltering cfg A).cells (step12 cfg A).cells := by
    rw [initialFiltering_as_filter]
    exact (List.filter_sublist _).trans (List.filter_sublist _)
  refine ⟨?_, ?_, rfl, rfl⟩
  · have hO := h1.map (fun c : ACell => c.id)
    have hstep : ((step12 cfg A).cells.map (fun c : ACell => c.id)) =
        ((A.cells.map (fun c => (⟨c.id, c.counts, countPos c.counts⟩ : ACell))).filter
          (fun c => decide (cfg.thr_min_genes ≤ (c.n_genes : ℤ)))).map
          (fun c : ACell => c.id) := by
      unfold step12 filter_genes filter_cells
      simp only [List.map_map]
      rfl
    rw [hstep] at hO
    refine hO.trans ?_
    have h2 := (List.filter_sublist (p := fun c : ACell => decide (cfg.thr_min_genes ≤ (c.n_genes : ℤ)))
        (A.cells.map (fun c => (⟨c.id, c.counts, countPos c.counts⟩ : ACell)))).map
        (fun c : ACell => c.id)
    simpa [List.map_map] using h2
  · exact applyMask_sublist _ _

theorem applyMask_mask_nil (xs : List α) : applyMask [] xs = [] := by
  cases xs <;> rfl

/-- C9: mitochondrial-gene detection is case-sensitive exact-prefix matching
on "MT-": the mito numerator only reads entries at positions whose gene
identifier starts with "MT-", so changing the counts of every other gene
(e.g. ones named "mt-..." or "Mt-...") leaves it unchanged. -/
theorem c9_mito_prefix_case_sensitive (vns : List String) (xs ys : List ℚ)
    (hlen : xs.length = ys.length)
    (hagree : ∀ j, j < xs.length →
      str_startswith (vns.getD j "") "MT-" = true → xs.getD j 0 = ys.getD j 0) :
    sumMasked (mitoMask vns) xs = sumMasked (mitoMask vns) ys := by
  induction vns generalizing xs ys with
  | nil =>
    simp [sumMasked, mitoMask, applyMask_mask_nil]
  | cons v vns ih =>
    cases xs with
    | nil =>
      have hy : ys = [] := List.length_eq_zero.mp hlen.symm
      subst hy
      rfl
    | cons x xs =>
      cases ys with
      | nil => simp at hlen
      | cons y ys =>
        simp only [List.length_cons, Nat.succ.injEq] at hlen
        have ihh := ih xs ys hlen (fun j hj hpre => by
          have := hagree (j + 1) (by simpa using Nat.succ_lt_succ hj)
            (by simpa using hpre)
          simpa using this)
        by_cases hb : str_startswith v "MT-" = true
        · have hxy : x = y := by
            have := hagree 0 (by simp) (by simpa using hb)
            simpa using this
          simp only [sumMasked, mitoMask, List.map_cons, applyMask, hb, if_true,
            List.sum_cons] at ihh ⊢
          rw [hxy, ihh]
        · simp only [Bool.not_eq_true] at hb
          simp only [sumMasked, mitoMask, List.map_cons, applyMask, hb,
            Bool.false_eq_true, if_false] at ihh ⊢
          exact ihh

/-- Witness for C9: the genes "mt-nd1", "Mt-CO2" and "MTX" do not match the
prefix, so zeroing their counts leaves the mito numerator unchanged. -/
theorem c9_witness :
    ([3, 7, 8, 9] : List ℚ).length = ([3, 0, 0, 0] : List ℚ).length ∧
    (∀ j, j < ([3, 7, 8, 9] : List ℚ).length →
      str_startswith ((["MT-CO1", "mt-nd1", "Mt-CO2", "MTX"] : List String).getD j "") "MT-" = true →
      ([3, 7, 8, 9] : List ℚ).getD j 0 = ([3, 0, 0, 0] : List ℚ).getD j 0) ∧
    sumMasked (mitoMask ["MT-CO1", "mt-nd1", "Mt-CO2", "MTX"]) [3, 7, 8, 9] =
      sumMasked (mitoMask ["MT-CO1", "mt-nd1", "Mt-CO2", "MTX"]) [3, 0, 0, 0] :=
  ⟨rfl, by decide,
   c9_mito_prefix_case_sensitive ["MT-CO1", "mt-nd1", "Mt-CO2", "MTX"]
     [3, 7, 8, 9] [3, 0, 0, 0] rfl (by decide)⟩

theorem getD_map (f : α → β) (l : List α) {i : ℕ} (h : i < l.length)
    (d : α) (d2 : β) : (l.map f).getD i d2 = f (l.getD i d) := by
  induction l generalizing i with
  | nil => simp at h
  | cons a l ih =>
    cases i with
    | zero => rfl
    | succ i =>
      simp only [List.map_cons, List.getD_cons_succ]
      exact ih (Nat.lt_of_succ_lt_succ h) 

theorem range_map_getD (xs : List α) (d : α) :
    (List.range xs.length).map (fun j => xs.getD j d) = xs := by
  induction xs with
  | nil => rfl
  | cons x xs ih =>
    rw [List.length_cons, List.range_succ_eq_map, List.map_cons, List.map_map]
    have htail : (List.range xs.length).map ((fun j => (x :: xs).getD j d) ∘ Nat.succ)
        = xs := by
      have hfun : ((fun j => (x :: xs).getD j d) ∘ Nat.succ) =
          (fun j => xs.getD j d) := rfl
      rw [hfun]
      exact ih
    rw [htail]
    rfl

theorem range_map_getD_comp (l : List α) (d : α) (g : α → β) :
    (List.range l.length).map (fun i => g (l.getD i d)) = l.map g := by
  conv_rhs => rw [← range_map_getD l d, List.map_map]
  rfl

/-- Column `i` of the written gene × cell matrix is exactly cell `i`'s row
of the final matrix (rectangularity needed to recover the full row). -/
theorem colOf_transposeX (cells : List ACell) (vlen : ℕ)
    (hWF : ∀ c ∈ cells, c.counts.length = vlen) {i : ℕ} (hi : i < cells.length) :
    colOf (transposeX (cells.map ACell.counts) vlen) i =
      (cells.getD i ⟨"", [], 0⟩).counts := by
  have hmem : cells.getD i ⟨"", [], 0⟩ ∈ cells := by
    rw [List.getD_eq_getElem?_getD, List.getElem?_eq_getElem hi]
    exact List.getElem_mem _
  have hlen : (cells.getD i ⟨"", [], 0⟩).counts.length = vlen := hWF _ hmem
  unfold colOf transposeX
  rw [List.map_map]
  have hstep : ∀ j : ℕ,
      ((fun r => r.getD i 0) ∘ fun j => (cells.map ACell.counts).map (fun r => r.getD j 0)) j =
        (cells.getD i ⟨"", [], 0⟩).counts.getD j 0 := by
    intro j
    simp only [Function.comp]
    rw [List.map_map]
    exact getD_map _ cells hi ⟨"", [], 0⟩ 0
  calc (List.range vlen).map
        ((fun r => r.getD i 0) ∘ fun j => (cells.map ACell.counts).map (fun r => r.getD j 0))
      = (List.range vlen).map (fun j => (cells.getD i ⟨"", [], 0⟩).counts.getD j 0) :=
        List.map_congr_left (fun j _ => hstep j)
    _ = (cells.getD i ⟨"", [], 0⟩).counts := by
        rw [← hlen, range_map_getD]

/-- Steps 1–2 keep the matrix rectangular. -/
theorem WF1_step12 (cfg : Config) (A : AnnData) (h : WF A) :
    WF1 (step12 cfg A) := by
  intro c hc
  unfold step12 filter_genes at hc ⊢
  simp only [List.mem_map] at hc
  obtain ⟨c1, hc1, rfl⟩ := hc
  have hlen : c1.counts.length = A.var_names.length := by
    unfold filter_cells at hc1
    rw [List.mem_filter] at hc1
    obtain ⟨hm, _⟩ := hc1
    simp only [List.mem_map] at hm
    obtain ⟨c0, hc0, rfl⟩ := hm
    exact h c0 hc0
  exact applyMask_length_eq _ hlen

/-- The full pipeline keeps the matrix rectangular. -/
theorem WF1_initialFiltering (cfg : Config) (A : AnnData) (h : WF A) :
    WF1 (initialFiltering cfg A) := by
  intro c hc
  obtain ⟨hm, _, _⟩ := mem_initialFiltering.mp hc
  have hlen := WF1_step12 cfg A h c hm
  rw [initialFiltering_as_filter]
  exact hlen

/-- C7: the writer serializes the final filtered matrix transposed to
gene × cell, with the gene identifiers as row attributes and, as column
attributes, the cell identifiers plus genes-detected and total counts per
cell recomputed from the final matrix (column `i` of the written matrix is
exactly cell `i`'s final row). -/
theorem c7_writer_transposed_recomputed (cfg : Config) (A : AnnData)
    (h : WF A) :
    (writeLoom (initialFiltering cfg A)).gene = (initialFiltering cfg A).var_names ∧
    (writeLoom (initialFiltering cfg A)).cellID =
      (initialFiltering cfg A).cells.map (fun c => c.id) ∧
    (writeLoom (initialFiltering cfg A)).matrix =
      transposeX ((initialFiltering cfg A).cells.map (fun c => c.counts))
        (initialFiltering cfg A).var_names.length ∧
    (writeLoom (initialFiltering cfg A)).nGene =
      (initialFiltering cfg A).cells.map (fun c => countPos c.counts) ∧
    (writeLoom (initialFiltering cfg A)).nUMI =
      (initialFiltering cfg A).cells.map (fun c => c.counts.sum) ∧
    ∀ i, i < (initialFiltering cfg A).cells.length →
      colOf (writeLoom (initialFiltering cfg A)).matrix i =
        ((initialFiltering cfg A).cells.getD i ⟨"", [], 0⟩).counts := by
  have hw := WF1_initialFiltering cfg A h
  refine ⟨rfl, rfl, rfl, ?_, ?_, ?_⟩
  · show (List.range (initialFiltering cfg A).cells.length).map
        (fun i => countPos (colOf
          (transposeX ((initialFiltering cfg A).cells.map ACell.counts)
            (initialFiltering cfg A).var_names.length) i)) = _
    calc (List.range (initialFiltering cfg A).cells.length).map
          (fun i => countPos (colOf
            (transposeX ((initialFiltering cfg A).cells.map ACell.counts)
              (initialFiltering cfg A).var_names.length) i))
        = (List.range (initialFiltering cfg A).cells.length).map
            (fun i => countPos ((initialFiltering cfg A).cells.getD i ⟨"", [], 0⟩).counts) :=
          List.map_congr_left (fun i hi => by
            rw [colOf_transposeX (initialFiltering cfg A).cells _ hw (List.mem_range.mp hi)])
      _ = (initialFiltering cfg A).cells.map (fun c => countPos c.counts) :=
          range_map_getD_comp (initialFiltering cfg A).cells ⟨"", [], 0⟩
            (fun c => countPos c.counts)
  · show (List.range (initialFiltering cfg A).cells.length).map
        (fun i => (colOf
          (transposeX ((initialFiltering cfg A).cells.map ACell.counts)
            (initialFiltering cfg A).var_names.length) i).sum) = _
    calc (List.range (initialFiltering cfg A).cells.length).map
          (fun i => (colOf
            (transposeX ((initialFiltering cfg A).cells.map ACell.counts)
              (initialFiltering cfg A).var_names.length) i).sum)
        = (List.range (initialFiltering cfg A).cells.length).map
            (fun i => ((initialFiltering cfg A).cells.getD i ⟨"", [], 0⟩).counts.sum) :=
          List.map_congr_left (fun i hi => by
            rw [colOf_transposeX (initialFiltering cfg A).cells _ hw (List.mem_range.mp hi)])
      _ = (initialFiltering cfg A).cells.map (fun c => c.counts.sum) :=
          range_map_getD_comp (initialFiltering cfg A).cells ⟨"", [], 0⟩
            (fun c => c.counts.sum)
  · intro i hi
    exact colOf_transposeX (initialFiltering cfg A).cells _ hw hi

/-- Witness for C7 at the concrete example data. -/
theorem c7_witness :
    WF exData ∧
    ((writeLoom (initialFiltering exCfg exData)).gene =
        (initialFiltering exCfg exData).var_names ∧
     (writeLoom (initialFiltering exCfg exData)).cellID =
        (initialFiltering exCfg exData).cells.map (fun c => c.id) ∧
     (writeLoom (initialFiltering exCfg exData)).matrix =
        transposeX ((initialFiltering exCfg exData).cells.map (fun c => c.counts))
          (initialFiltering exCfg exData).var_names.length ∧
     (writeLoom (initialFiltering exCfg exData)).nGene =
        (initialFiltering exCfg exData).cells.map (fun c => countPos c.counts) ∧
     (writeLoom (initialFiltering exCfg exData)).nUMI =
        (initialFiltering exCfg exData).cells.map (fun c => c.counts.sum) ∧
     ∀ i, i < (initialFiltering exCfg exData).cells.length →
       colOf (writeLoom (initialFiltering exCfg exData)).matrix i =
         ((initialFiltering exCfg exData).cells.getD i ⟨"", [], 0⟩).counts) :=
  ⟨by unfold WF exData; decide,
   c7_writer_transposed_recomputed exCfg exData (by unfold WF exData; decide)⟩

end RatEval
